import Mathlib

/-!
Verification of the nodecrypt encrypted-value core: the three cipher
variants (`Encryptor` = AES-256-GCM "Modern", `JasyptEncryptor` =
PBEWithMD5AndDES "Legacy", `JasyptStrongEncryptor` =
PBEWithHmacSHA256AndAES_256 "Strong"), the `ENC(...)` framing helpers and
the batch decryption helpers, shallowly embedded from
`src/encryptor.ts`, `src/jasypt-compat.ts` and `src/utils.ts`.

Bytes are modelled as `Nat` values below 256 in `List Nat`; JavaScript
strings are modelled as `List Char`.  The external cryptographic
primitives from Node's `crypto` module (MD5, PBKDF2, the DES/AES cipher
objects including their padding, and the random source) are passed in
as function parameters: theorems assume only their documented contracts
at the points of use.  Base64 (Node `Buffer` encode/decode) is
implemented concretely.
-/

namespace Nodecrypt

/-- Error taxonomy of the spec: empty-argument errors, framing/format
errors, and cipher-level decryption failures.  The TypeScript source
throws `Error` objects; the distinct constructors follow which message
is thrown. -/
inductive Err where
  | invalidArg : Err
  | invalidFormat : Err
  | decryptionFailed : Err
deriving DecidableEq

/-- The standard Base64 alphabet. -/
def b64Alphabet : List Char :=
  String.toList "ABCDEFGHIJKLMNOPQRSTUVWXYZabcdefghijklmnopqrstuvwxyz0123456789+/"

/-- Character for a 6-bit group. -/
def b64Char (n : Nat) : Char := b64Alphabet.getD n 'A'

/-- 6-bit value of a Base64 character. -/
def b64Val (c : Char) : Nat := b64Alphabet.findIdx (fun x => x = c)

/-- Base64 encoding of a byte list (standard alphabet, with padding),
modelling Node's `buffer.toString('base64')`. -/
def base64Encode : List Nat → List Char
  | a :: b :: c :: rest =>
      b64Char (a / 4) :: b64Char ((a % 4) * 16 + b / 16) ::
      b64Char ((b % 16) * 4 + c / 64) :: b64Char (c % 64) :: base64Encode rest
  | [a, b] => [b64Char (a / 4), b64Char ((a % 4) * 16 + b / 16), b64Char ((b % 16) * 4), '=']
  | [a] => [b64Char (a / 4), b64Char ((a % 4) * 16), '=', '=']
  | [] => []

/-- Base64 decoding to a byte list, modelling Node's
`Buffer.from(s, 'base64')` on well-formed input. -/
def base64Decode : List Char → List Nat
  | c0 :: c1 :: c2 :: c3 :: rest =>
      if c2 = '=' then [b64Val c0 * 4 + b64Val c1 / 16]
      else if c3 = '=' then
        [b64Val c0 * 4 + b64Val c1 / 16, (b64Val c1 % 16) * 16 + b64Val c2 / 4]
      else
        (b64Val c0 * 4 + b64Val c1 / 16) :: ((b64Val c1 % 16) * 16 + b64Val c2 / 4) ::
        ((b64Val c2 % 4) * 64 + b64Val c3) :: base64Decode rest
  | _ => []

/-- A byte list: every element below 256. -/
def Bytes (l : List Nat) : Prop := ∀ x ∈ l, x < 256

lemma b64Val_b64Char : ∀ n < 64, b64Val (b64Char n) = n := by decide

lemma b64Char_ne_eq : ∀ n < 64, b64Char n ≠ '=' := by decide

lemma base64_roundtrip : ∀ l : List Nat, Bytes l → base64Decode (base64Encode l) = l := by
  intro l
  induction l using base64Encode.induct with
  | case1 a b c rest ih =>
    intro hb
    have ha : a < 256 := hb a (by simp)
    have hbb : b < 256 := hb b (by simp)
    have hc : c < 256 := hb c (by simp)
    have h0 : a / 4 < 64 := by omega
    have h1 : (a % 4) * 16 + b / 16 < 64 := by omega
    have h2 : (b % 16) * 4 + c / 64 < 64 := by omega
    have h3 : c % 64 < 64 := by omega
    rw [base64Encode, base64Decode]
    rw [if_neg (b64Char_ne_eq _ h2), if_neg (b64Char_ne_eq _ h3)]
    rw [b64Val_b64Char _ h0, b64Val_b64Char _ h1, b64Val_b64Char _ h2, b64Val_b64Char _ h3]
    have := ih (by intro x hx; exact hb x (by simp [hx]))
    rw [this]
    congr 1
    · omega
    congr 1
    · omega
    congr 1
    · omega
  | case2 a b =>
    intro hb
    have ha : a < 256 := hb a (by simp)
    have hbb : b < 256 := hb b (by simp)
    have h0 : a / 4 < 64 := by omega
    have h1 : (a % 4) * 16 + b / 16 < 64 := by omega
    have h2 : (b % 16) * 4 < 64 := by omega
    rw [base64Encode, base64Decode]
    rw [if_neg (b64Char_ne_eq _ h2), if_pos rfl]
    rw [b64Val_b64Char _ h0, b64Val_b64Char _ h1, b64Val_b64Char _ h2]
    congr 1
    · omega
    congr 1
    · omega
  | case3 a =>
    intro hb
    have ha : a < 256 := hb a (by simp)
    have h0 : a / 4 < 64 := by omega
    have h1 : (a % 4) * 16 < 64 := by omega
    rw [base64Encode, base64Decode, if_pos rfl]
    rw [b64Val_b64Char _ h0, b64Val_b64Char _ h1]
    congr 1
    omega
  | case4 => intro hb; rfl

/-! ## Strings, whitespace and the `ENC(...)` marker (`src/utils.ts`) -/

/-- Whitespace predicate used to model JavaScript's `String.trim` on the
character set relevant to this code base. -/
def isWs (c : Char) : Bool := c = ' ' ∨ c = '\t' ∨ c = '\n' ∨ c = '\r'

/-- Model of `value.trim()`: drop whitespace from both ends. -/
def trimL (l : List Char) : List Char :=
  ((l.dropWhile isWs).reverse.dropWhile isWs).reverse

/-- `ENC_PREFIX` of `src/utils.ts`, the opening marker `ENC(`. -/
def ENC_OPEN : List Char := ['E', 'N', 'C', '(']

/-- `ENC_SUFFIX` of `src/utils.ts`, the closing marker `)`. -/
def ENC_CLOSE : List Char := [')']

/-- `isEncrypted` of `src/utils.ts`: false on null/undefined (`none`)
and on the empty string, otherwise true iff the trimmed value starts
with `ENC(` and ends with `)`. -/
def isEncrypted : Option (List Char) → Bool
  | none => false
  | some s =>
      if s = [] then false
      else ENC_OPEN.isPrefixOf (trimL s) && ENC_CLOSE.isSuffixOf (trimL s)

/-! ## The regex scanner of `decryptAllInString`

`ENC_PATTERN` in `src/utils.ts` is the global regex `ENC\(([^)]+)\)`, and
`String.replace` with a global regex substitutes every non-overlapping,
leftmost occurrence.  `tryMatch` attempts the pattern at one position;
`scanGo` walks the string position by position (fuel = remaining length,
so the recursion is structural and computable). -/

/-- Attempt to match `ENC\(([^)]+)\)` at the head of `l`.  On success
returns the captured content (nonempty, `)`-free) and the residue after
the closing parenthesis. -/
def tryMatch (l : List Char) : Option (List Char × List Char) :=
  match l with
  | c0 :: c1 :: c2 :: c3 :: rest =>
      if c0 = 'E' ∧ c1 = 'N' ∧ c2 = 'C' ∧ c3 = '(' then
        match rest.dropWhile (fun c => c ≠ ')') with
        | r0 :: rem =>
            if r0 = ')' ∧ rest.takeWhile (fun c => c ≠ ')') ≠ [] then
              some (rest.takeWhile (fun c => c ≠ ')'), rem)
            else none
        | [] => none
      else none
  | _ => none

/-- One pass of global regex replacement: at each position try the
pattern; on a match emit `rep content` and continue after the match,
otherwise emit the character and move one position right. -/
def scanGo (rep : List Char → List Char) : Nat → List Char → List Char
  | 0, l => l
  | _ + 1, [] => []
  | n + 1, c :: cs =>
      match tryMatch (c :: cs) with
      | some (content, rem) => rep content ++ scanGo rep n rem
      | none => c :: scanGo rep n cs

/-- `input.replace(ENC_PATTERN, rep)` with replacement computed from the
captured content. -/
def runScan (rep : List Char → List Char) (l : List Char) : List Char :=
  scanGo rep l.length l

/-- The replacement callback of `decryptAllInString`: decrypt the full
match `ENC(content)` with `decryptPrefixed`; keep the original match
text on error. -/
def replaceMatch (decPref : List Char → Except Err (List Char)) (content : List Char) :
    List Char :=
  match decPref ('E' :: 'N' :: 'C' :: '(' :: (content ++ [')'])) with
  | .ok v => v
  | .error _ => 'E' :: 'N' :: 'C' :: '(' :: (content ++ [')'])

/-- `decryptAllInString` (identical in all three variant classes),
parametric in the variant's `decryptPrefixed`. -/
def decryptAllInString (decPref : List Char → Except Err (List Char)) (input : List Char) :
    List Char :=
  runScan (replaceMatch decPref) input

/-- `decryptMap` (identical in all three variant classes): a flat
string-to-string map is modelled as an association list in insertion
order, matching `Object.entries`. -/
def decryptMap (decPref : List Char → Except Err (List Char))
    (config : List (List Char × List Char)) : List (List Char × List Char) :=
  config.map (fun kv =>
    (kv.1,
      if isEncrypted (some kv.2) then
        match decPref kv.2 with
        | .ok v => v
        | .error _ => kv.2
      else kv.2))

/-! ## Generic framing layer (`encryptWithPrefix` / `decryptPrefixed`)

The three variant classes contain the same framing code; it is embedded
once, parametric in the variant's raw `encrypt` / `decrypt`. -/

/-- `encryptWithPrefix`: raw-encrypt and wrap in `ENC(` ... `)`. -/
def encryptFramed (enc : List Nat → Except Err (List Char)) (plaintext : List Nat) :
    Except Err (List Char) :=
  (enc plaintext).map (fun e => ENC_OPEN ++ e ++ ENC_CLOSE)

/-- `decryptPrefixed`: trim, check both markers, strip them
(`slice(4, -1)`), raw-decrypt. -/
def decryptPrefixed (dec : List Char → Except Err (List Nat)) (value : List Char) :
    Except Err (List Nat) :=
  let trimmed := trimL value
  if ENC_OPEN.isPrefixOf trimmed ∧ ENC_CLOSE.isSuffixOf trimmed then
    dec ((trimmed.drop 4).dropLast)
  else .error .invalidFormat

/-! ## Modern Variant: `Encryptor` (`src/encryptor.ts`, AES-256-GCM)

External primitives passed as parameters:
`kdf password salt iterations keyLen` models `crypto.pbkdf2Sync(...,
'sha256')`; `gcmEnc key iv pt = (ciphertext, tag)` models the
`aes-256-gcm` cipher; `gcmDec key iv ct tag` models the decipher,
`none` meaning it threw (tag mismatch / malformed input).  The fresh
random `salt` and `iv` of `encrypt` are parameters standing for the
`crypto.randomBytes` draws. -/

/-- JavaScript `buffer.subarray(s, e)` index clamping. -/
def jsIndex (len : Nat) (i : Int) : Nat :=
  if i < 0 then (len + i).toNat else min i.toNat len

/-- JavaScript `buffer.subarray(s, e)` on a byte list. -/
def subarrayI (l : List Nat) (s e : Int) : List Nat :=
  (l.take (jsIndex l.length e)).drop (jsIndex l.length s)

/-- Configuration and state of an `Encryptor` instance: UTF-8 password
bytes, PBKDF2 iteration count (default 10000), salt size (default 16),
key size (default 32). -/
structure Encryptor where
  password : List Nat
  iterations : Nat
  saltSize : Nat
  keySize : Nat

/-- `Encryptor.deriveKey`: PBKDF2-HMAC-SHA256 of the password with the
given salt, configured iterations and key size. -/
def Encryptor.deriveKey (kdf : List Nat → List Nat → Nat → Nat → List Nat)
    (e : Encryptor) (salt : List Nat) : List Nat :=
  kdf e.password salt e.iterations e.keySize

/-- `Encryptor.encrypt`: reject empty plaintext, derive the key from
the fresh salt, GCM-encrypt with the fresh 12-byte IV and return
Base64 of `salt ++ iv ++ ciphertext ++ tag`. -/
def Encryptor.encrypt (kdf : List Nat → List Nat → Nat → Nat → List Nat)
    (gcmEnc : List Nat → List Nat → List Nat → List Nat × List Nat)
    (e : Encryptor) (salt iv plaintext : List Nat) : Except Err (List Char) :=
  if plaintext = [] then .error .invalidArg
  else
    let key := e.deriveKey kdf salt
    let sealed := gcmEnc key iv plaintext
    .ok (base64Encode (salt ++ iv ++ sealed.1 ++ sealed.2))

/-- `Encryptor.decrypt`: reject empty input, Base64-decode, slice
`salt = [0, saltSize)`, `iv = [saltSize, saltSize+12)`,
`tag = [len-16, len)`, `ciphertext = [saltSize+12, len-16)`, re-derive
the key from the recovered salt and GCM-decrypt. -/
def Encryptor.decrypt (kdf : List Nat → List Nat → Nat → Nat → List Nat)
    (gcmDec : List Nat → List Nat → List Nat → List Nat → Option (List Nat))
    (e : Encryptor) (encoded : List Char) : Except Err (List Nat) :=
  if encoded = [] then .error .invalidArg
  else
    let combined := base64Decode encoded
    let salt := subarrayI combined 0 e.saltSize
    let iv := subarrayI combined e.saltSize (e.saltSize + 12)
    let tag := subarrayI combined ((combined.length : Int) - 16) combined.length
    let ciphertext := subarrayI combined (e.saltSize + 12) ((combined.length : Int) - 16)
    let key := e.deriveKey kdf salt
    match gcmDec key iv ciphertext tag with
    | some pt => .ok pt
    | none => .error .decryptionFailed

/-! ## Legacy Variant: `JasyptEncryptor` (`src/jasypt-compat.ts`,
PBEWithMD5AndDES)

`md5` models `crypto.createHash('md5')` (a 16-byte digest);
`desEnc key iv pt` models the `des-cbc` cipher including its PKCS5
padding; `desDec key iv ct` the decipher, `none` meaning it threw
(e.g. bad padding). -/

/-- `n`-fold application of a function (the digest-chaining loop body). -/
def applyNTimes (f : List Nat → List Nat) : Nat → List Nat → List Nat
  | 0, x => x
  | n + 1, x => applyNTimes f n (f x)

/-- Configuration of a `JasyptEncryptor`: UTF-8 password bytes and the
iteration count (default 1000).  `SALT_SIZE` is fixed at 8. -/
structure JasyptEncryptor where
  password : List Nat
  iterations : Nat

/-- `JasyptEncryptor.deriveKeyAndIv`: hash `password ++ salt` once with
MD5, then re-hash the digest `iterations - 1` further times (the
`for (let i = 1; i < this.iterations; i++)` loop); split the final
16 bytes as `key = subarray(0, 8)`, `iv = subarray(8, 16)`. -/
def JasyptEncryptor.deriveKeyAndIv (md5 : List Nat → List Nat)
    (j : JasyptEncryptor) (salt : List Nat) : List Nat × List Nat :=
  let data := j.password ++ salt
  let result := applyNTimes md5 (j.iterations - 1) (md5 data)
  (result.take 8, (result.drop 8).take 8)

/-- `JasyptEncryptor.encrypt`: reject empty plaintext, derive key and
IV from the fresh 8-byte salt, DES-CBC-encrypt, return Base64 of
`salt ++ ciphertext`. -/
def JasyptEncryptor.encrypt (md5 : List Nat → List Nat)
    (desEnc : List Nat → List Nat → List Nat → List Nat)
    (j : JasyptEncryptor) (salt plaintext : List Nat) : Except Err (List Char) :=
  if plaintext = [] then .error .invalidArg
  else
    let kiv := j.deriveKeyAndIv md5 salt
    let encrypted := desEnc kiv.1 kiv.2 plaintext
    .ok (base64Encode (salt ++ encrypted))

/-- `JasyptEncryptor.decrypt`: reject empty input, Base64-decode,
reject blobs shorter than 16 bytes and ciphertext portions that are
not a multiple of the 8-byte DES block, re-derive key and IV from the
recovered salt and DES-CBC-decrypt.  All failures inside the `try`
surface as `Decryption failed`. -/
def JasyptEncryptor.decrypt (md5 : List Nat → List Nat)
    (desDec : List Nat → List Nat → List Nat → Option (List Nat))
    (j : JasyptEncryptor) (encoded : List Char) : Except Err (List Nat) :=
  if encoded = [] then .error .invalidArg
  else
    let combined := base64Decode encoded
    if combined.length < 16 then .error .decryptionFailed
    else
      let salt := combined.take 8
      let ciphertext := combined.drop 8
      if ciphertext.length % 8 ≠ 0 then .error .decryptionFailed
      else
        let kiv := j.deriveKeyAndIv md5 salt
        match desDec kiv.1 kiv.2 ciphertext with
        | some pt => .ok pt
        | none => .error .decryptionFailed

/-! ## Strong Variant: `JasyptStrongEncryptor` (`src/jasypt-compat.ts`,
PBEWithHmacSHA256AndAES_256)

`kdf` models `crypto.pbkdf2Sync(..., 'sha256')`; `aesEnc` / `aesDec`
model the `aes-256-cbc` cipher with PKCS7 padding. -/

/-- Configuration of a `JasyptStrongEncryptor`: UTF-8 password bytes,
iterations (default 1000), salt size (default 16).  `KEY_SIZE = 32`
and `IV_SIZE = 16` are fixed. -/
structure JasyptStrongEncryptor where
  password : List Nat
  iterations : Nat
  saltSize : Nat

/-- `JasyptStrongEncryptor.deriveKeyAndIv`: one PBKDF2-HMAC-SHA256 call
producing `32 + 16` bytes, split as `key = subarray(0, 32)`,
`iv = subarray(32)`. -/
def JasyptStrongEncryptor.deriveKeyAndIv (kdf : List Nat → List Nat → Nat → Nat → List Nat)
    (j : JasyptStrongEncryptor) (salt : List Nat) : List Nat × List Nat :=
  let derived := kdf j.password salt j.iterations (32 + 16)
  (derived.take 32, derived.drop 32)

/-- `JasyptStrongEncryptor.encrypt`: reject empty plaintext, derive key
and IV from the fresh salt, AES-256-CBC-encrypt, return Base64 of
`salt ++ ciphertext`. -/
def JasyptStrongEncryptor.encrypt (kdf : List Nat → List Nat → Nat → Nat → List Nat)
    (aesEnc : List Nat → List Nat → List Nat → List Nat)
    (j : JasyptStrongEncryptor) (salt plaintext : List Nat) : Except Err (List Char) :=
  if plaintext = [] then .error .invalidArg
  else
    let kiv := j.deriveKeyAndIv kdf salt
    let encrypted := aesEnc kiv.1 kiv.2 plaintext
    .ok (base64Encode (salt ++ encrypted))

/-- `JasyptStrongEncryptor.decrypt`: reject empty input, Base64-decode,
reject blobs shorter than `saltSize + 16` bytes and ciphertext portions
that are not a multiple of the 16-byte AES block, re-derive key and IV
from the recovered salt and AES-256-CBC-decrypt. -/
def JasyptStrongEncryptor.decrypt (kdf : List Nat → List Nat → Nat → Nat → List Nat)
    (aesDec : List Nat → List Nat → List Nat → Option (List Nat))
    (j : JasyptStrongEncryptor) (encoded : List Char) : Except Err (List Nat) :=
  if encoded = [] then .error .invalidArg
  else
    let combined := base64Decode encoded
    if combined.length < j.saltSize + 16 then .error .decryptionFailed
    else
      let salt := combined.take j.saltSize
      let ciphertext := combined.drop j.saltSize
      if ciphertext.length % 16 ≠ 0 then .error .decryptionFailed
      else
        let kiv := j.deriveKeyAndIv kdf salt
        match aesDec kiv.1 kiv.2 ciphertext with
        | some pt => .ok pt
        | none => .error .decryptionFailed

/-! ## Spec-side derivation definitions (for the refinement claims) -/

/-- The Legacy derivation as the spec words it: hash `password ++ salt`
and re-hash the digest until `n` total digest applications have been
performed; the final 16-byte output is split into an 8-byte key (first
half) and an 8-byte IV (second half).  `applyNTimes md5 n` performs
exactly `n` total applications. -/
def specLegacyKeyIv (md5 : List Nat → List Nat) (password salt : List Nat) (n : Nat) :
    List Nat × List Nat :=
  let r := applyNTimes md5 n (password ++ salt)
  (r.take 8, r.drop 8)

/-- The Strong derivation as the spec words it: one PBKDF2 call
producing exactly 48 bytes, first 32 the key, the remaining 16 the IV. -/
def specStrongKeyIv (kdf : List Nat → List Nat → Nat → Nat → List Nat)
    (password salt : List Nat) (n : Nat) : List Nat × List Nat :=
  let d := kdf password salt n 48
  (d.take 32, d.drop 32)

lemma applyNTimes_md5_length (md5 : List Nat → List Nat)
    (hlen : ∀ x, (md5 x).length = 16) :
    ∀ (m : Nat) (x : List Nat), (applyNTimes md5 m (md5 x)).length = 16 := by
  intro m
  induction m with
  | zero => intro x; exact hlen x
  | succ m ih => intro x; exact ih (md5 x)

/-- C2: the Legacy Variant's key+IV derivation equals the spec's
chained-digest description: for `iterations = n ≥ 1`, the code's
one-hash-then-`n-1`-re-hashes loop performs exactly `n` total digest
applications of a 16-byte digest, and the `subarray(0,8)` /
`subarray(8,16)` split is the first-half / second-half split. -/
theorem legacy_derive_spec (md5 : List Nat → List Nat) (j : JasyptEncryptor)
    (salt : List Nat) (hit : 1 ≤ j.iterations)
    (hlen : ∀ x, (md5 x).length = 16) :
    j.deriveKeyAndIv md5 salt = specLegacyKeyIv md5 j.password salt j.iterations := by
  obtain ⟨m, hm⟩ : ∃ m, j.iterations = m + 1 := ⟨j.iterations - 1, by omega⟩
  unfold JasyptEncryptor.deriveKeyAndIv specLegacyKeyIv
  rw [hm]
  have hstep : applyNTimes md5 (m + 1) (j.password ++ salt) =
      applyNTimes md5 m (md5 (j.password ++ salt)) := rfl
  rw [hstep]
  have h16 : (applyNTimes md5 m (md5 (j.password ++ salt))).length = 16 :=
    applyNTimes_md5_length md5 hlen m _
  have : m + 1 - 1 = m := by omega
  rw [this]
  refine congrArg _ ?_
  apply List.take_of_length_le
  simp [List.length_drop, h16]

/-- C2 witness: a concrete digest stand-in of output length 16, at
`iterations = 3`. -/
theorem legacy_derive_spec_witness :
    JasyptEncryptor.deriveKeyAndIv (fun l => List.replicate 16 (l.length % 256))
      ⟨[7, 8], 3⟩ [1, 2, 3, 4, 5, 6, 7, 8] =
    specLegacyKeyIv (fun l => List.replicate 16 (l.length % 256)) [7, 8]
      [1, 2, 3, 4, 5, 6, 7, 8] 3 :=
  legacy_derive_spec (fun l => List.replicate 16 (l.length % 256))
    ⟨[7, 8], 3⟩ [1, 2, 3, 4, 5, 6, 7, 8] (by decide) (fun x => by simp)

/-- C4: the Strong Variant's key+IV derivation is a single PBKDF2 call
for 48 bytes split 32/16, exactly as the spec words it; under the
PBKDF2 output-length contract the key has 32 bytes and the IV 16. -/
theorem strong_derive_spec (kdf : List Nat → List Nat → Nat → Nat → List Nat)
    (j : JasyptStrongEncryptor) (salt : List Nat)
    (hlen : (kdf j.password salt j.iterations 48).length = 48) :
    j.deriveKeyAndIv kdf salt = specStrongKeyIv kdf j.password salt j.iterations ∧
    (j.deriveKeyAndIv kdf salt).1.length = 32 ∧
    (j.deriveKeyAndIv kdf salt).2.length = 16 := by
  have h48 : (32 + 16 : Nat) = 48 := rfl
  unfold JasyptStrongEncryptor.deriveKeyAndIv specStrongKeyIv
  rw [h48]
  refine ⟨rfl, ?_, ?_⟩
  · simp [List.length_take, hlen]
  · simp [List.length_drop, hlen]

/-- C4 witness: a concrete PBKDF2 stand-in returning `klen` bytes. -/
theorem strong_derive_spec_witness :
    JasyptStrongEncryptor.deriveKeyAndIv (fun _ _ _ klen => List.replicate klen 5)
      ⟨[7], 1000, 16⟩ [9, 9] =
    specStrongKeyIv (fun _ _ _ klen => List.replicate klen 5) [7] [9, 9] 1000 :=
  (strong_derive_spec (fun _ _ _ klen => List.replicate klen 5)
    ⟨[7], 1000, 16⟩ [9, 9] (by simp)).1

/-- C8: `isEncrypted` is a total Boolean predicate (it cannot throw);
it is true exactly on present values that, after trimming, start with
`ENC(` and end with `)`; and it decides the spec's seven literal edge
cases as listed. -/
theorem isEncrypted_spec :
    (∀ v : Option (List Char), isEncrypted v = true ↔
      ∃ s, v = some s ∧ s ≠ [] ∧ ENC_OPEN.isPrefixOf (trimL s) = true ∧
        ENC_CLOSE.isSuffixOf (trimL s) = true) ∧
    isEncrypted (some (String.toList "ENC(abc123)")) = true ∧
    isEncrypted (some (String.toList "ENC()")) = true ∧
    isEncrypted (some (String.toList "  ENC(value)  ")) = true ∧
    isEncrypted (some (String.toList "plaintext")) = false ∧
    isEncrypted (some (String.toList "ENC(missing")) = false ∧
    isEncrypted (some (String.toList "")) = false ∧
    isEncrypted none = false := by
  refine ⟨?_, by decide, by decide, by decide, by decide, by decide, by decide, rfl⟩
  intro v
  cases v with
  | none => simp [isEncrypted]
  | some s =>
    by_cases h : s = []
    · subst h; simp [isEncrypted]
    · simp [isEncrypted, h]

/-! ## Modern Variant blob layout -/

lemma base64Encode_ne_nil (l : List Nat) (h : l ≠ []) : base64Encode l ≠ [] := by
  match l with
  | a :: b :: c :: rest => simp [base64Encode]
  | [a, b] => simp [base64Encode]
  | [a] => simp [base64Encode]
  | [] => exact absurd rfl h

lemma base64Encode_inj (x y : List Nat) (hx : Bytes x) (hy : Bytes y)
    (h : base64Encode x = base64Encode y) : x = y := by
  rw [← base64_roundtrip x hx, ← base64_roundtrip y hy, h]

lemma bytes_append (x y : List Nat) (hx : Bytes x) (hy : Bytes y) : Bytes (x ++ y) := by
  intro a ha
  rcases List.mem_append.mp ha with h | h
  · exact hx a h
  · exact hy a h

/-- The structural content shared by C3 and the Modern part of C1:
`encrypt` produces Base64 of `salt ++ iv ++ ct ++ tag`, and `decrypt` of
that blob recovers the four components at the documented offsets,
re-derives the key from the recovered salt, and hands everything to the
GCM decipher. -/
lemma modern_layout_core (kdf : List Nat → List Nat → Nat → Nat → List Nat)
    (gcmEnc : List Nat → List Nat → List Nat → List Nat × List Nat)
    (gcmDec : List Nat → List Nat → List Nat → List Nat → Option (List Nat))
    (e : Encryptor) (salt iv plaintext : List Nat)
    (hpt : plaintext ≠ [])
    (hsalt : salt.length = e.saltSize)
    (hiv : iv.length = 12)
    (htag : (gcmEnc (e.deriveKey kdf salt) iv plaintext).2.length = 16)
    (hbs : Bytes salt) (hbi : Bytes iv)
    (hbc : Bytes (gcmEnc (e.deriveKey kdf salt) iv plaintext).1)
    (hbt : Bytes (gcmEnc (e.deriveKey kdf salt) iv plaintext).2) :
    Encryptor.encrypt kdf gcmEnc e salt iv plaintext =
      .ok (base64Encode (salt ++ iv ++ (gcmEnc (e.deriveKey kdf salt) iv plaintext).1 ++
        (gcmEnc (e.deriveKey kdf salt) iv plaintext).2)) ∧
    base64Decode (base64Encode (salt ++ iv ++ (gcmEnc (e.deriveKey kdf salt) iv plaintext).1 ++
        (gcmEnc (e.deriveKey kdf salt) iv plaintext).2)) =
      salt ++ iv ++ (gcmEnc (e.deriveKey kdf salt) iv plaintext).1 ++
        (gcmEnc (e.deriveKey kdf salt) iv plaintext).2 ∧
    (let ct := (gcmEnc (e.deriveKey kdf salt) iv plaintext).1
     let tag := (gcmEnc (e.deriveKey kdf salt) iv plaintext).2
     let combined := salt ++ iv ++ ct ++ tag
     subarrayI combined 0 e.saltSize = salt ∧
     subarrayI combined e.saltSize (e.saltSize + 12) = iv ∧
     subarrayI combined ((combined.length : Int) - 16) combined.length = tag ∧
     subarrayI combined (e.saltSize + 12) ((combined.length : Int) - 16) = ct) ∧
    Encryptor.decrypt kdf gcmDec e
        (base64Encode (salt ++ iv ++ (gcmEnc (e.deriveKey kdf salt) iv plaintext).1 ++
          (gcmEnc (e.deriveKey kdf salt) iv plaintext).2)) =
      (match gcmDec (kdf e.password salt e.iterations e.keySize) iv
          (gcmEnc (e.deriveKey kdf salt) iv plaintext).1
          (gcmEnc (e.deriveKey kdf salt) iv plaintext).2 with
       | some pt => .ok pt
       | none => .error .decryptionFailed) := by
  set ct := (gcmEnc (e.deriveKey kdf salt) iv plaintext).1 with hct
  set tag := (gcmEnc (e.deriveKey kdf salt) iv plaintext).2 with htg
  have hbytes : Bytes (salt ++ iv ++ ct ++ tag) :=
    bytes_append _ _ (bytes_append _ _ (bytes_append _ _ hbs hbi) hbc) hbt
  have hdec : base64Decode (base64Encode (salt ++ iv ++ ct ++ tag)) =
      salt ++ iv ++ ct ++ tag := base64_roundtrip _ hbytes
  have hlen : (salt ++ iv ++ ct ++ tag).length =
      e.saltSize + 12 + ct.length + 16 := by
    simp [hsalt, hiv, htag]; omega
  -- the four slices
  have hs0 : subarrayI (salt ++ iv ++ ct ++ tag) 0 e.saltSize = salt := by
    unfold subarrayI jsIndex
    rw [hlen]
    have e1 : ((0 : Int).toNat) = 0 := rfl
    simp only [if_neg (by omega : ¬ ((e.saltSize : Int) < 0)), if_neg (by omega : ¬ ((0:Int) < 0)), e1]
    have e2 : ((e.saltSize : Int)).toNat = e.saltSize := by omega
    rw [e2]
    have e3 : min e.saltSize (e.saltSize + 12 + ct.length + 16) = e.saltSize := by omega
    have e4 : min 0 (e.saltSize + 12 + ct.length + 16) = 0 := by omega
    rw [e3, e4, List.drop_zero]
    have : salt ++ iv ++ ct ++ tag = salt ++ (iv ++ ct ++ tag) := by simp
    rw [this, List.take_left' hsalt]
  have hs1 : subarrayI (salt ++ iv ++ ct ++ tag) e.saltSize (e.saltSize + 12) = iv := by
    unfold subarrayI jsIndex
    rw [hlen]
    simp only [if_neg (by omega : ¬ ((e.saltSize : Int) < 0)),
      if_neg (by omega : ¬ ((e.saltSize : Int) + 12 < 0))]
    have e2 : ((e.saltSize : Int)).toNat = e.saltSize := by omega
    have e2' : ((e.saltSize : Int) + 12).toNat = e.saltSize + 12 := by omega
    rw [e2, e2']
    have e3 : min (e.saltSize + 12) (e.saltSize + 12 + ct.length + 16) = e.saltSize + 12 := by
      omega
    have e4 : min e.saltSize (e.saltSize + 12 + ct.length + 16) = e.saltSize := by omega
    rw [e3, e4]
    have h5 : salt ++ iv ++ ct ++ tag = (salt ++ iv) ++ (ct ++ tag) := by simp
    rw [h5, List.take_left' (by simp [hsalt, hiv]), List.drop_left' hsalt]
  have hs2 : subarrayI (salt ++ iv ++ ct ++ tag)
      (((salt ++ iv ++ ct ++ tag).length : Int) - 16) (salt ++ iv ++ ct ++ tag).length = tag := by
    unfold subarrayI jsIndex
    rw [hlen]
    simp only [if_neg (by omega : ¬ (((e.saltSize + 12 + ct.length + 16 : Nat) : Int) - 16 < 0)),
      if_neg (by omega : ¬ (((e.saltSize + 12 + ct.length + 16 : Nat) : Int) < 0))]
    have e2 : (((e.saltSize + 12 + ct.length + 16 : Nat) : Int) - 16).toNat =
        e.saltSize + 12 + ct.length := by omega
    have e2' : (((e.saltSize + 12 + ct.length + 16 : Nat) : Int)).toNat =
        e.saltSize + 12 + ct.length + 16 := by omega
    rw [e2, e2']
    have e3 : min (e.saltSize + 12 + ct.length + 16) (e.saltSize + 12 + ct.length + 16) =
        e.saltSize + 12 + ct.length + 16 := by omega
    have e4 : min (e.saltSize + 12 + ct.length) (e.saltSize + 12 + ct.length + 16) =
        e.saltSize + 12 + ct.length := by omega
    rw [e3, e4]
    have h5 : List.take (e.saltSize + 12 + ct.length + 16) (salt ++ iv ++ ct ++ tag) =
        salt ++ iv ++ ct ++ tag := List.take_of_length_le (by omega)
    rw [h5]
    exact List.drop_left' (by simp [hsalt, hiv]; omega)
  have hs3 : subarrayI (salt ++ iv ++ ct ++ tag)
      (e.saltSize + 12) (((salt ++ iv ++ ct ++ tag).length : Int) - 16) = ct := by
    unfold subarrayI jsIndex
    rw [hlen]
    simp only [if_neg (by omega : ¬ (((e.saltSize + 12 + ct.length + 16 : Nat) : Int) - 16 < 0)),
      if_neg (by omega : ¬ ((e.saltSize : Int) + 12 < 0))]
    have e2 : (((e.saltSize + 12 + ct.length + 16 : Nat) : Int) - 16).toNat =
        e.saltSize + 12 + ct.length := by omega
    have e2' : ((e.saltSize : Int) + 12).toNat = e.saltSize + 12 := by omega
    rw [e2, e2']
    have e3 : min (e.saltSize + 12 + ct.length) (e.saltSize + 12 + ct.length + 16) =
        e.saltSize + 12 + ct.length := by omega
    have e4 : min (e.saltSize + 12) (e.saltSize + 12 + ct.length + 16) = e.saltSize + 12 := by
      omega
    rw [e3, e4]
    have h5 : salt ++ iv ++ ct ++ tag = (salt ++ iv ++ ct) ++ tag := by simp
    rw [h5, List.take_left' (by simp [hsalt, hiv]; omega)]
    have h6 : salt ++ iv ++ ct = (salt ++ iv) ++ ct := by simp
    rw [h6, List.drop_left' (by simp [hsalt, hiv])]
  have henc : Encryptor.encrypt kdf gcmEnc e salt iv plaintext =
      .ok (base64Encode (salt ++ iv ++ ct ++ tag)) := by
    unfold Encryptor.encrypt
    rw [if_neg hpt]
  refine ⟨henc, hdec, ⟨hs0, hs1, hs2, hs3⟩, ?_⟩
  unfold Encryptor.decrypt
  rw [if_neg (base64Encode_ne_nil _ (by
    intro hcon
    have hl := congrArg List.length hcon
    rw [hlen] at hl
    simp only [List.length_nil] at hl
    omega))]
  simp only [hdec, hs0, hs1, hs2, hs3]
  rfl

/-- C3: for the Modern Variant, every blob `encrypt` produces is the
Base64 encoding of `salt(saltSize) ++ iv(12) ++ ciphertext ++ tag(16)`,
and `decrypt` recovers salt, IV, tag and ciphertext at exactly those
offsets before re-deriving the key from the recovered salt and
authenticated-decrypting. -/
theorem modern_blob_layout (kdf : List Nat → List Nat → Nat → Nat → List Nat)
    (gcmEnc : List Nat → List Nat → List Nat → List Nat × List Nat)
    (gcmDec : List Nat → List Nat → List Nat → List Nat → Option (List Nat))
    (e : Encryptor) (salt iv plaintext : List Nat)
    (hpt : plaintext ≠ [])
    (hsalt : salt.length = e.saltSize)
    (hiv : iv.length = 12)
    (htag : (gcmEnc (e.deriveKey kdf salt) iv plaintext).2.length = 16)
    (hbs : Bytes salt) (hbi : Bytes iv)
    (hbc : Bytes (gcmEnc (e.deriveKey kdf salt) iv plaintext).1)
    (hbt : Bytes (gcmEnc (e.deriveKey kdf salt) iv plaintext).2) :
    Encryptor.encrypt kdf gcmEnc e salt iv plaintext =
      .ok (base64Encode (salt ++ iv ++ (gcmEnc (e.deriveKey kdf salt) iv plaintext).1 ++
        (gcmEnc (e.deriveKey kdf salt) iv plaintext).2)) ∧
    base64Decode (base64Encode (salt ++ iv ++ (gcmEnc (e.deriveKey kdf salt) iv plaintext).1 ++
        (gcmEnc (e.deriveKey kdf salt) iv plaintext).2)) =
      salt ++ iv ++ (gcmEnc (e.deriveKey kdf salt) iv plaintext).1 ++
        (gcmEnc (e.deriveKey kdf salt) iv plaintext).2 ∧
    (let ct := (gcmEnc (e.deriveKey kdf salt) iv plaintext).1
     let tag := (gcmEnc (e.deriveKey kdf salt) iv plaintext).2
     let combined := salt ++ iv ++ ct ++ tag
     subarrayI combined 0 e.saltSize = salt ∧
     subarrayI combined e.saltSize (e.saltSize + 12) = iv ∧
     subarrayI combined ((combined.length : Int) - 16) combined.length = tag ∧
     subarrayI combined (e.saltSize + 12) ((combined.length : Int) - 16) = ct) ∧
    Encryptor.decrypt kdf gcmDec e
        (base64Encode (salt ++ iv ++ (gcmEnc (e.deriveKey kdf salt) iv plaintext).1 ++
          (gcmEnc (e.deriveKey kdf salt) iv plaintext).2)) =
      (match gcmDec (kdf e.password salt e.iterations e.keySize) iv
          (gcmEnc (e.deriveKey kdf salt) iv plaintext).1
          (gcmEnc (e.deriveKey kdf salt) iv plaintext).2 with
       | some pt => .ok pt
       | none => .error .decryptionFailed) :=
  modern_layout_core kdf gcmEnc gcmDec e salt iv plaintext hpt hsalt hiv htag hbs hbi hbc hbt

/-- C3 witness: concrete configuration, salt, IV and plaintext under a
concrete GCM stand-in; stated on the decrypt-side conclusion. -/
theorem modern_blob_layout_witness :
    Encryptor.decrypt
        (fun _ _ _ klen => List.replicate klen 3)
        (fun _ _ ct _ => some ct)
        ⟨[7], 10000, 16, 32⟩
        (base64Encode (List.replicate 16 0 ++ List.replicate 12 0 ++
          ((fun (_ _ : List Nat) (pt : List Nat) => (pt, List.replicate 16 0))
            (Encryptor.deriveKey (fun _ _ _ klen => List.replicate klen 3)
              ⟨[7], 10000, 16, 32⟩ (List.replicate 16 0)) (List.replicate 12 0) [1, 2, 3]).1 ++
          ((fun (_ _ : List Nat) (pt : List Nat) => (pt, List.replicate 16 0))
            (Encryptor.deriveKey (fun _ _ _ klen => List.replicate klen 3)
              ⟨[7], 10000, 16, 32⟩ (List.replicate 16 0)) (List.replicate 12 0) [1, 2, 3]).2)) =
      (match (fun (_ _ _ _ : List Nat) => some ([1, 2, 3] : List Nat))
          ((fun (_ _ : List Nat) (_ ik : Nat) => List.replicate ik 3) [7] (List.replicate 16 0)
            10000 32) (List.replicate 12 0) [1, 2, 3] (List.replicate 16 0) with
       | some pt => Except.ok pt
       | none => Except.error Err.decryptionFailed) := by
  have h := modern_blob_layout (fun _ _ _ klen => List.replicate klen 3)
    (fun _ _ pt => (pt, List.replicate 16 0))
    (fun _ _ ct _ => some ct)
    ⟨[7], 10000, 16, 32⟩ (List.replicate 16 0) (List.replicate 12 0) [1, 2, 3]
    (by decide) (by decide) (by decide) (by decide)
    (by unfold Bytes; decide) (by unfold Bytes; decide)
    (by unfold Bytes; decide) (by unfold Bytes; decide)
  have h4 := h.2.2.2
  exact h4.trans rfl

/-! ## Length and block checks of the two CBC variants -/

/-- C5: for every non-empty encoded input, the Legacy `decrypt` errors
whenever the Base64-decoded blob is shorter than 16 bytes or the
ciphertext portion after the 8-byte salt is not a multiple of 8; the
Strong `decrypt` errors whenever the decoded blob is shorter than
`saltSize + 16` bytes or the portion after the salt is not a multiple
of 16. -/
theorem decrypt_length_checks (md5 : List Nat → List Nat)
    (desDec : List Nat → List Nat → List Nat → Option (List Nat))
    (kdf : List Nat → List Nat → Nat → Nat → List Nat)
    (aesDec : List Nat → List Nat → List Nat → Option (List Nat))
    (j : JasyptEncryptor) (js : JasyptStrongEncryptor) (encoded : List Char)
    (hne : encoded ≠ []) :
    (((base64Decode encoded).length < 16 ∨
        ((base64Decode encoded).drop 8).length % 8 ≠ 0) →
      JasyptEncryptor.decrypt md5 desDec j encoded = .error .decryptionFailed) ∧
    (((base64Decode encoded).length < js.saltSize + 16 ∨
        ((base64Decode encoded).drop js.saltSize).length % 16 ≠ 0) →
      JasyptStrongEncryptor.decrypt kdf aesDec js encoded = .error .decryptionFailed) := by
  constructor
  · intro h
    unfold JasyptEncryptor.decrypt
    rw [if_neg hne]
    rcases h with h | h
    · rw [if_pos h]
    · by_cases hlt : (base64Decode encoded).length < 16
      · rw [if_pos hlt]
      · rw [if_neg hlt, if_pos h]
  · intro h
    unfold JasyptStrongEncryptor.decrypt
    rw [if_neg hne]
    rcases h with h | h
    · rw [if_pos h]
    · by_cases hlt : (base64Decode encoded).length < js.saltSize + 16
      · rw [if_pos hlt]
      · rw [if_neg hlt, if_pos h]

/-- C5 witness: the four-character input `"AAAA"` decodes to 3 bytes,
which is both below the Legacy floor of 16 and below the Strong floor
of `16 + 16`. -/
theorem decrypt_length_checks_witness :
    JasyptEncryptor.decrypt (fun _ => []) (fun _ _ _ => none) ⟨[1], 1000⟩
        (String.toList "AAAA") = .error .decryptionFailed ∧
    JasyptStrongEncryptor.decrypt (fun _ _ _ _ => []) (fun _ _ _ => none) ⟨[1], 1000, 16⟩
        (String.toList "AAAA") = .error .decryptionFailed := by
  have h := decrypt_length_checks (fun _ => []) (fun _ _ _ => none)
    (fun _ _ _ _ => []) (fun _ _ _ => none) ⟨[1], 1000⟩ ⟨[1], 1000, 16⟩
    (String.toList "AAAA") (by decide)
  exact ⟨h.1 (by decide), h.2 (by decide)⟩

/-! ## Framing helper -/

lemma trimL_eq_self (l : List Char)
    (h1 : ∀ x, l.head? = some x → isWs x = false)
    (h2 : ∀ x, l.getLast? = some x → isWs x = false) : trimL l = l := by
  have step1 : l.dropWhile isWs = l := by
    cases l with
    | nil => rfl
    | cons c t =>
      rw [List.dropWhile_cons, if_neg (by rw [h1 c rfl]; simp)]
  have step2 : l.reverse.dropWhile isWs = l.reverse := by
    cases hrev : l.reverse with
    | nil => rfl
    | cons c t =>
      have hc : l.getLast? = some c := by
        rw [← List.head?_reverse, hrev]; rfl
      rw [List.dropWhile_cons, if_neg (by rw [h2 c hc]; simp)]
  unfold trimL
  rw [step1, step2, List.reverse_reverse]

lemma trimL_frame (e : List Char) :
    trimL (ENC_OPEN ++ e ++ ENC_CLOSE) = ENC_OPEN ++ e ++ ENC_CLOSE := by
  apply trimL_eq_self
  · intro x hx
    simp [ENC_OPEN] at hx
    rw [← hx]; rfl
  · intro x hx
    have : ENC_OPEN ++ e ++ ENC_CLOSE = (ENC_OPEN ++ e) ++ [')'] := by
      simp [ENC_CLOSE]
    rw [this, List.getLast?_concat] at hx
    have hxx := Option.some.inj hx
    rw [← hxx]; rfl

/-- C6: for every variant (any raw `encrypt` / `decrypt` pair that
round-trips on the given plaintext), `decryptPrefixed` of
`encryptWithPrefix` recovers the plaintext, the framed value satisfies
`isEncrypted`, and every value whose trimmed form does not carry both
markers is rejected with the invalid-format error. -/
theorem framing_roundtrip (enc : List Nat → Except Err (List Char))
    (dec : List Char → Except Err (List Nat))
    (plaintext : List Nat) (e : List Char)
    (henc : enc plaintext = .ok e)
    (hdec : dec e = .ok plaintext) :
    encryptFramed enc plaintext = .ok (ENC_OPEN ++ e ++ ENC_CLOSE) ∧
    decryptPrefixed dec (ENC_OPEN ++ e ++ ENC_CLOSE) = .ok plaintext ∧
    isEncrypted (some (ENC_OPEN ++ e ++ ENC_CLOSE)) = true ∧
    (∀ v, ¬ (ENC_OPEN.isPrefixOf (trimL v) = true ∧
             ENC_CLOSE.isSuffixOf (trimL v) = true) →
      decryptPrefixed dec v = .error .invalidFormat) := by
  have hpre : ENC_OPEN.isPrefixOf (ENC_OPEN ++ e ++ ENC_CLOSE) = true := by
    rw [List.isPrefixOf_iff_prefix, List.append_assoc]
    exact List.prefix_append _ _
  have hsuf : ENC_CLOSE.isSuffixOf (ENC_OPEN ++ e ++ ENC_CLOSE) = true := by
    rw [List.isSuffixOf_iff_suffix]
    exact List.suffix_append _ _
  refine ⟨?_, ?_, ?_, ?_⟩
  · unfold encryptFramed
    rw [henc]; rfl
  · unfold decryptPrefixed
    rw [trimL_frame, if_pos ⟨hpre, hsuf⟩]
    have hdrop : (ENC_OPEN ++ e ++ ENC_CLOSE).drop 4 = e ++ [')'] := by
      rw [List.append_assoc]
      exact List.drop_left' (by rfl)
    rw [hdrop, List.dropLast_concat, hdec]
  · have hne : ENC_OPEN ++ e ++ ENC_CLOSE ≠ [] := by simp [ENC_OPEN]
    simp only [isEncrypted]
    rw [if_neg hne, trimL_frame, hpre, hsuf]
    rfl
  · intro v hv
    unfold decryptPrefixed
    rw [if_neg hv]

/-- C6 witness: a concrete round-tripping raw pair. -/
theorem framing_roundtrip_witness :
    decryptPrefixed (fun s => if s = ['x'] then .ok [1] else .error .decryptionFailed)
      (ENC_OPEN ++ ['x'] ++ ENC_CLOSE) = .ok [1] :=
  (framing_roundtrip (fun _ => .ok ['x'])
    (fun s => if s = ['x'] then .ok [1] else .error .decryptionFailed)
    [1] ['x'] rfl rfl).2.1

/-! ## Round-trip invariant (all three variants)

Each `...Good` predicate records the documented contract of the
external cipher primitives at one (salt, IV, plaintext) call site:
output lengths, byte ranges, and that the decipher inverts the cipher
under the same key and IV. -/

/-- Contract of the AES-256-GCM primitive pair at one call site. -/
def GcmGood (kdf : List Nat → List Nat → Nat → Nat → List Nat)
    (gcmEnc : List Nat → List Nat → List Nat → List Nat × List Nat)
    (gcmDec : List Nat → List Nat → List Nat → List Nat → Option (List Nat))
    (e : Encryptor) (salt iv pt : List Nat) : Prop :=
  salt.length = e.saltSize ∧ iv.length = 12 ∧ Bytes salt ∧ Bytes iv ∧
  Bytes (gcmEnc (e.deriveKey kdf salt) iv pt).1 ∧
  Bytes (gcmEnc (e.deriveKey kdf salt) iv pt).2 ∧
  (gcmEnc (e.deriveKey kdf salt) iv pt).2.length = 16 ∧
  gcmDec (e.deriveKey kdf salt) iv (gcmEnc (e.deriveKey kdf salt) iv pt).1
    (gcmEnc (e.deriveKey kdf salt) iv pt).2 = some pt

/-- Contract of the DES-CBC/PKCS5 primitive pair at one call site. -/
def DesGood (md5 : List Nat → List Nat)
    (desEnc : List Nat → List Nat → List Nat → List Nat)
    (desDec : List Nat → List Nat → List Nat → Option (List Nat))
    (j : JasyptEncryptor) (salt pt : List Nat) : Prop :=
  salt.length = 8 ∧ Bytes salt ∧
  Bytes (desEnc (j.deriveKeyAndIv md5 salt).1 (j.deriveKeyAndIv md5 salt).2 pt) ∧
  (desEnc (j.deriveKeyAndIv md5 salt).1 (j.deriveKeyAndIv md5 salt).2 pt).length % 8 = 0 ∧
  8 ≤ (desEnc (j.deriveKeyAndIv md5 salt).1 (j.deriveKeyAndIv md5 salt).2 pt).length ∧
  desDec (j.deriveKeyAndIv md5 salt).1 (j.deriveKeyAndIv md5 salt).2
    (desEnc (j.deriveKeyAndIv md5 salt).1 (j.deriveKeyAndIv md5 salt).2 pt) = some pt

/-- Contract of the AES-256-CBC/PKCS7 primitive pair at one call site. -/
def AesGood (kdf : List Nat → List Nat → Nat → Nat → List Nat)
    (aesEnc : List Nat → List Nat → List Nat → List Nat)
    (aesDec : List Nat → List Nat → List Nat → Option (List Nat))
    (js : JasyptStrongEncryptor) (salt pt : List Nat) : Prop :=
  salt.length = js.saltSize ∧ Bytes salt ∧
  Bytes (aesEnc (js.deriveKeyAndIv kdf salt).1 (js.deriveKeyAndIv kdf salt).2 pt) ∧
  (aesEnc (js.deriveKeyAndIv kdf salt).1 (js.deriveKeyAndIv kdf salt).2 pt).length % 16 = 0 ∧
  16 ≤ (aesEnc (js.deriveKeyAndIv kdf salt).1 (js.deriveKeyAndIv kdf salt).2 pt).length ∧
  aesDec (js.deriveKeyAndIv kdf salt).1 (js.deriveKeyAndIv kdf salt).2
    (aesEnc (js.deriveKeyAndIv kdf salt).1 (js.deriveKeyAndIv kdf salt).2 pt) = some pt

/-- Two salt-prefixed blobs with distinct equal-length salts Base64
encode to distinct strings. -/
lemma encode_salt_ne {n : Nat} (s1 r1 s2 r2 : List Nat)
    (hb1 : Bytes (s1 ++ r1)) (hb2 : Bytes (s2 ++ r2))
    (hl1 : s1.length = n) (hl2 : s2.length = n) (hne : s1 ≠ s2) :
    base64Encode (s1 ++ r1) ≠ base64Encode (s2 ++ r2) := by
  intro h
  have heq := base64Encode_inj _ _ hb1 hb2 h
  apply hne
  have e1 : (s1 ++ r1).take n = s1 := List.take_left' hl1
  have e2 : (s2 ++ r2).take n = s2 := List.take_left' hl2
  rw [← e1, ← e2, heq]

/-- Legacy round trip: under the DES contract, `decrypt` inverts
`encrypt`. -/
lemma legacy_roundtrip_core (md5 : List Nat → List Nat)
    (desEnc : List Nat → List Nat → List Nat → List Nat)
    (desDec : List Nat → List Nat → List Nat → Option (List Nat))
    (j : JasyptEncryptor) (salt pt : List Nat)
    (hpt : pt ≠ []) (hc : DesGood md5 desEnc desDec j salt pt) :
    JasyptEncryptor.encrypt md5 desEnc j salt pt =
      .ok (base64Encode (salt ++
        desEnc (j.deriveKeyAndIv md5 salt).1 (j.deriveKeyAndIv md5 salt).2 pt)) ∧
    JasyptEncryptor.decrypt md5 desDec j (base64Encode (salt ++
        desEnc (j.deriveKeyAndIv md5 salt).1 (j.deriveKeyAndIv md5 salt).2 pt)) = .ok pt := by
  obtain ⟨hsalt, hbs, hbc, hmod, hge, hinv⟩ := hc
  set ct := desEnc (j.deriveKeyAndIv md5 salt).1 (j.deriveKeyAndIv md5 salt).2 pt with hctdef
  have hbytes : Bytes (salt ++ ct) := bytes_append _ _ hbs hbc
  have hdec : base64Decode (base64Encode (salt ++ ct)) = salt ++ ct :=
    base64_roundtrip _ hbytes
  have hlen : (salt ++ ct).length = 8 + ct.length := by simp [hsalt]
  constructor
  · unfold JasyptEncryptor.encrypt
    rw [if_neg hpt]
  · unfold JasyptEncryptor.decrypt
    rw [if_neg (base64Encode_ne_nil _ (by
      intro hcon
      have hl := congrArg List.length hcon
      rw [hlen] at hl
      simp only [List.length_nil] at hl
      omega))]
    simp only [hdec]
    rw [if_neg (by rw [hlen]; omega)]
    rw [List.take_left' hsalt, List.drop_left' hsalt]
    rw [if_neg (by omega)]
    rw [hinv]

/-- Strong round trip: under the AES contract, `decrypt` inverts
`encrypt`. -/
lemma strong_roundtrip_core (kdf : List Nat → List Nat → Nat → Nat → List Nat)
    (aesEnc : List Nat → List Nat → List Nat → List Nat)
    (aesDec : List Nat → List Nat → List Nat → Option (List Nat))
    (js : JasyptStrongEncryptor) (salt pt : List Nat)
    (hpt : pt ≠ []) (hc : AesGood kdf aesEnc aesDec js salt pt) :
    JasyptStrongEncryptor.encrypt kdf aesEnc js salt pt =
      .ok (base64Encode (salt ++
        aesEnc (js.deriveKeyAndIv kdf salt).1 (js.deriveKeyAndIv kdf salt).2 pt)) ∧
    JasyptStrongEncryptor.decrypt kdf aesDec js (base64Encode (salt ++
        aesEnc (js.deriveKeyAndIv kdf salt).1 (js.deriveKeyAndIv kdf salt).2 pt)) = .ok pt := by
  obtain ⟨hsalt, hbs, hbc, hmod, hge, hinv⟩ := hc
  set ct := aesEnc (js.deriveKeyAndIv kdf salt).1 (js.deriveKeyAndIv kdf salt).2 pt with hctdef
  have hbytes : Bytes (salt ++ ct) := bytes_append _ _ hbs hbc
  have hdec : base64Decode (base64Encode (salt ++ ct)) = salt ++ ct :=
    base64_roundtrip _ hbytes
  have hlen : (salt ++ ct).length = js.saltSize + ct.length := by simp [hsalt]
  constructor
  · unfold JasyptStrongEncryptor.encrypt
    rw [if_neg hpt]
  · unfold JasyptStrongEncryptor.decrypt
    rw [if_neg (base64Encode_ne_nil _ (by
      intro hcon
      have hl := congrArg List.length hcon
      rw [hlen] at hl
      simp only [List.length_nil] at hl
      omega))]
    simp only [hdec]
    rw [if_neg (by rw [hlen]; omega)]
    rw [List.take_left' hsalt, List.drop_left' hsalt]
    rw [if_neg (by omega)]
    rw [hinv]

/-- C1: for every non-empty password configuration and non-empty
plaintext, under each variant's primitive contracts, `decrypt ∘ encrypt`
is the identity, and two `encrypt` calls with distinct fresh salts
produce different blobs that both decrypt back to the plaintext. -/
theorem roundtrip_all_variants
    (kdf : List Nat → List Nat → Nat → Nat → List Nat)
    (gcmEnc : List Nat → List Nat → List Nat → List Nat × List Nat)
    (gcmDec : List Nat → List Nat → List Nat → List Nat → Option (List Nat))
    (md5 : List Nat → List Nat)
    (desEnc : List Nat → List Nat → List Nat → List Nat)
    (desDec : List Nat → List Nat → List Nat → Option (List Nat))
    (aesEnc : List Nat → List Nat → List Nat → List Nat)
    (aesDec : List Nat → List Nat → List Nat → Option (List Nat))
    (e : Encryptor) (j : JasyptEncryptor) (js : JasyptStrongEncryptor)
    (mpt jpt spt ms1 ms2 miv1 miv2 js1 js2 ss1 ss2 : List Nat)
    (hmpt : mpt ≠ []) (hjpt : jpt ≠ []) (hspt : spt ≠ [])
    (hg1 : GcmGood kdf gcmEnc gcmDec e ms1 miv1 mpt)
    (hg2 : GcmGood kdf gcmEnc gcmDec e ms2 miv2 mpt)
    (hms : ms1 ≠ ms2)
    (hd1 : DesGood md5 desEnc desDec j js1 jpt)
    (hd2 : DesGood md5 desEnc desDec j js2 jpt)
    (hjs : js1 ≠ js2)
    (ha1 : AesGood kdf aesEnc aesDec js ss1 spt)
    (ha2 : AesGood kdf aesEnc aesDec js ss2 spt)
    (hss : ss1 ≠ ss2) :
    (∃ b1 b2,
      Encryptor.encrypt kdf gcmEnc e ms1 miv1 mpt = .ok b1 ∧
      Encryptor.encrypt kdf gcmEnc e ms2 miv2 mpt = .ok b2 ∧
      b1 ≠ b2 ∧
      Encryptor.decrypt kdf gcmDec e b1 = .ok mpt ∧
      Encryptor.decrypt kdf gcmDec e b2 = .ok mpt) ∧
    (∃ b1 b2,
      JasyptEncryptor.encrypt md5 desEnc j js1 jpt = .ok b1 ∧
      JasyptEncryptor.encrypt md5 desEnc j js2 jpt = .ok b2 ∧
      b1 ≠ b2 ∧
      JasyptEncryptor.decrypt md5 desDec j b1 = .ok jpt ∧
      JasyptEncryptor.decrypt md5 desDec j b2 = .ok jpt) ∧
    (∃ b1 b2,
      JasyptStrongEncryptor.encrypt kdf aesEnc js ss1 spt = .ok b1 ∧
      JasyptStrongEncryptor.encrypt kdf aesEnc js ss2 spt = .ok b2 ∧
      b1 ≠ b2 ∧
      JasyptStrongEncryptor.decrypt kdf aesDec js b1 = .ok spt ∧
      JasyptStrongEncryptor.decrypt kdf aesDec js b2 = .ok spt) := by
  refine ⟨?_, ?_, ?_⟩
  · -- Modern Variant
    obtain ⟨hs1, hi1, hbs1, hbi1, hbc1, hbt1, ht1, hv1⟩ := hg1
    obtain ⟨hs2, hi2, hbs2, hbi2, hbc2, hbt2, ht2, hv2⟩ := hg2
    have c1 := modern_layout_core kdf gcmEnc gcmDec e ms1 miv1 mpt hmpt hs1 hi1 ht1
      hbs1 hbi1 hbc1 hbt1
    have c2 := modern_layout_core kdf gcmEnc gcmDec e ms2 miv2 mpt hmpt hs2 hi2 ht2
      hbs2 hbi2 hbc2 hbt2
    refine ⟨_, _, c1.1, c2.1, ?_, ?_, ?_⟩
    · have r1 : ms1 ++ miv1 ++ (gcmEnc (e.deriveKey kdf ms1) miv1 mpt).1 ++
          (gcmEnc (e.deriveKey kdf ms1) miv1 mpt).2 =
          ms1 ++ (miv1 ++ ((gcmEnc (e.deriveKey kdf ms1) miv1 mpt).1 ++
            (gcmEnc (e.deriveKey kdf ms1) miv1 mpt).2)) := by simp
      have r2 : ms2 ++ miv2 ++ (gcmEnc (e.deriveKey kdf ms2) miv2 mpt).1 ++
          (gcmEnc (e.deriveKey kdf ms2) miv2 mpt).2 =
          ms2 ++ (miv2 ++ ((gcmEnc (e.deriveKey kdf ms2) miv2 mpt).1 ++
            (gcmEnc (e.deriveKey kdf ms2) miv2 mpt).2)) := by simp
      rw [r1, r2]
      exact encode_salt_ne _ _ _ _
        (by rw [← r1]; exact bytes_append _ _ (bytes_append _ _ (bytes_append _ _ hbs1 hbi1) hbc1) hbt1)
        (by rw [← r2]; exact bytes_append _ _ (bytes_append _ _ (bytes_append _ _ hbs2 hbi2) hbc2) hbt2)
        hs1 hs2 hms
    · rw [c1.2.2.2]
      simp only [Encryptor.deriveKey] at hv1 ⊢
      rw [hv1]
    · rw [c2.2.2.2]
      simp only [Encryptor.deriveKey] at hv2 ⊢
      rw [hv2]
  · -- Legacy Variant
    have c1 := legacy_roundtrip_core md5 desEnc desDec j js1 jpt hjpt hd1
    have c2 := legacy_roundtrip_core md5 desEnc desDec j js2 jpt hjpt hd2
    refine ⟨_, _, c1.1, c2.1, ?_, c1.2, c2.2⟩
    exact encode_salt_ne _ _ _ _
      (bytes_append _ _ hd1.2.1 hd1.2.2.1)
      (bytes_append _ _ hd2.2.1 hd2.2.2.1)
      hd1.1 hd2.1 hjs
  · -- Strong Variant
    have c1 := strong_roundtrip_core kdf aesEnc aesDec js ss1 spt hspt ha1
    have c2 := strong_roundtrip_core kdf aesEnc aesDec js ss2 spt hspt ha2
    refine ⟨_, _, c1.1, c2.1, ?_, c1.2, c2.2⟩
    exact encode_salt_ne _ _ _ _
      (bytes_append _ _ ha1.2.1 ha1.2.2.1)
      (bytes_append _ _ ha2.2.1 ha2.2.2.1)
      ha1.1 ha2.1 hss

/-! Concrete stand-in primitives used to witness the contract
hypotheses at one point. -/

/-- Witness KDF: `klen` constant bytes. -/
def wKdf : List Nat → List Nat → Nat → Nat → List Nat := fun _ _ _ klen => List.replicate klen 3

/-- Witness GCM cipher: identity ciphertext, constant 16-byte tag. -/
def wGcmE : List Nat → List Nat → List Nat → List Nat × List Nat :=
  fun _ _ pt => (pt, List.replicate 16 0)

/-- Witness GCM decipher: returns the ciphertext. -/
def wGcmD : List Nat → List Nat → List Nat → List Nat → Option (List Nat) :=
  fun _ _ ct _ => some ct

/-- Witness digest: 16 bytes derived from the input length. -/
def wMd5 : List Nat → List Nat := fun l => List.replicate 16 (l.length % 256)

/-- Witness CBC cipher: identity (the witness plaintexts are already
block-aligned). -/
def wCbcE : List Nat → List Nat → List Nat → List Nat := fun _ _ pt => pt

/-- Witness CBC decipher: returns the ciphertext. -/
def wCbcD : List Nat → List Nat → List Nat → Option (List Nat) := fun _ _ ct => some ct

/-- C1 witness: concrete salts, IVs and plaintexts for all three
variants, with the primitive contracts discharged by computation. -/
theorem roundtrip_all_variants_witness :
    (∃ b1 b2,
      Encryptor.encrypt wKdf wGcmE ⟨[7], 10000, 16, 32⟩
        (List.replicate 16 0) (List.replicate 12 0) [1, 2, 3] = .ok b1 ∧
      Encryptor.encrypt wKdf wGcmE ⟨[7], 10000, 16, 32⟩
        (List.replicate 16 1) (List.replicate 12 0) [1, 2, 3] = .ok b2 ∧
      b1 ≠ b2 ∧
      Encryptor.decrypt wKdf wGcmD ⟨[7], 10000, 16, 32⟩ b1 = .ok [1, 2, 3] ∧
      Encryptor.decrypt wKdf wGcmD ⟨[7], 10000, 16, 32⟩ b2 = .ok [1, 2, 3]) ∧
    (∃ b1 b2,
      JasyptEncryptor.encrypt wMd5 wCbcE ⟨[7], 3⟩
        (List.replicate 8 0) (List.replicate 8 5) = .ok b1 ∧
      JasyptEncryptor.encrypt wMd5 wCbcE ⟨[7], 3⟩
        (List.replicate 8 1) (List.replicate 8 5) = .ok b2 ∧
      b1 ≠ b2 ∧
      JasyptEncryptor.decrypt wMd5 wCbcD ⟨[7], 3⟩ b1 = .ok (List.replicate 8 5) ∧
      JasyptEncryptor.decrypt wMd5 wCbcD ⟨[7], 3⟩ b2 = .ok (List.replicate 8 5)) ∧
    (∃ b1 b2,
      JasyptStrongEncryptor.encrypt wKdf wCbcE ⟨[7], 3, 16⟩
        (List.replicate 16 0) (List.replicate 16 6) = .ok b1 ∧
      JasyptStrongEncryptor.encrypt wKdf wCbcE ⟨[7], 3, 16⟩
        (List.replicate 16 1) (List.replicate 16 6) = .ok b2 ∧
      b1 ≠ b2 ∧
      JasyptStrongEncryptor.decrypt wKdf wCbcD ⟨[7], 3, 16⟩ b1 = .ok (List.replicate 16 6) ∧
      JasyptStrongEncryptor.decrypt wKdf wCbcD ⟨[7], 3, 16⟩ b2 = .ok (List.replicate 16 6)) :=
  roundtrip_all_variants wKdf wGcmE wGcmD wMd5 wCbcE wCbcD wCbcE wCbcD
    ⟨[7], 10000, 16, 32⟩ ⟨[7], 3⟩ ⟨[7], 3, 16⟩
    [1, 2, 3] (List.replicate 8 5) (List.replicate 16 6)
    (List.replicate 16 0) (List.replicate 16 1) (List.replicate 12 0) (List.replicate 12 0)
    (List.replicate 8 0) (List.replicate 8 1) (List.replicate 16 0) (List.replicate 16 1)
    (by decide) (by decide) (by decide)
    (by unfold GcmGood Bytes Encryptor.deriveKey wKdf wGcmE wGcmD; decide)
    (by unfold GcmGood Bytes Encryptor.deriveKey wKdf wGcmE wGcmD; decide)
    (by decide)
    (by unfold DesGood Bytes JasyptEncryptor.deriveKeyAndIv wMd5 wCbcE wCbcD; decide)
    (by unfold DesGood Bytes JasyptEncryptor.deriveKeyAndIv wMd5 wCbcE wCbcD; decide)
    (by decide)
    (by unfold AesGood Bytes JasyptStrongEncryptor.deriveKeyAndIv wKdf wCbcE wCbcD; decide)
    (by unfold AesGood Bytes JasyptStrongEncryptor.deriveKeyAndIv wKdf wCbcE wCbcD; decide)
    (by decide)

/-! ## Batch decryption: scanner lemmas -/

/-- Does the string begin with the literal `ENC(`? -/
def startsOpen : List Char → Bool
  | c0 :: c1 :: c2 :: c3 :: _ => decide (c0 = 'E' ∧ c1 = 'N' ∧ c2 = 'C' ∧ c3 = '(')
  | _ => false

/-- Does the string contain the literal `ENC(` anywhere?  Segments with
`containsOpen = false` can never take part in a match of
`ENC_PATTERN`. -/
def containsOpen : List Char → Bool
  | [] => false
  | c :: cs => startsOpen (c :: cs) || containsOpen cs

/-- A text assembled from a leading segment and a list of
(content, following-segment) pairs, each content wrapped in the
`ENC(...)` markers. -/
def assemble : List Char → List (List Char × List Char) → List Char
  | a, [] => a
  | a, (c, b) :: rest => a ++ ('E' :: 'N' :: 'C' :: '(' :: (c ++ [')'])) ++ assemble b rest

/-- The same text with each framed occurrence replaced through `rep`. -/
def assembleWith (rep : List Char → List Char) :
    List Char → List (List Char × List Char) → List Char
  | a, [] => a
  | a, (c, b) :: rest => a ++ rep c ++ assembleWith rep b rest

/-- No nonempty suffix of `a`, continued by `rest`, matches the
pattern: the scanner walks straight through `a`. -/
def CleanFor (a rest : List Char) : Prop :=
  ∀ a2, a2 ≠ [] → a2 <:+ a → tryMatch (a2 ++ rest) = none

lemma takeWhile_all_append (p : Char → Bool) (c : List Char) (x : Char) (r : List Char)
    (hc : ∀ y ∈ c, p y = true) (hx : p x = false) :
    (c ++ x :: r).takeWhile p = c := by
  induction c with
  | nil => simp [List.takeWhile_cons, hx]
  | cons a t ih =>
    rw [List.cons_append, List.takeWhile_cons, hc a (by simp), if_pos rfl]
    rw [ih (fun y hy => hc y (by simp [hy]))]

lemma dropWhile_all_append (p : Char → Bool) (c : List Char) (x : Char) (r : List Char)
    (hc : ∀ y ∈ c, p y = true) (hx : p x = false) :
    (c ++ x :: r).dropWhile p = x :: r := by
  induction c with
  | nil => simp [List.dropWhile_cons, hx]
  | cons a t ih =>
    rw [List.cons_append, List.dropWhile_cons, hc a (by simp), if_pos rfl]
    exact ih (fun y hy => hc y (by simp [hy]))

lemma tryMatch_frame (content rem : List Char) (hne : content ≠ [])
    (hnp : ∀ y ∈ content, y ≠ ')') :
    tryMatch ('E' :: 'N' :: 'C' :: '(' :: (content ++ ')' :: rem)) = some (content, rem) := by
  have hc : ∀ y ∈ content, (fun c => decide (c ≠ ')')) y = true := by
    intro y hy
    simp [hnp y hy]
  have hd := dropWhile_all_append (fun c => decide (c ≠ ')')) content ')' rem hc (by simp)
  have ht := takeWhile_all_append (fun c => decide (c ≠ ')')) content ')' rem hc (by simp)
  simp only [tryMatch]
  rw [hd, ht]
  simp [hne]

lemma tryMatch_some_shape (l content rem : List Char)
    (h : tryMatch l = some (content, rem)) :
    l = 'E' :: 'N' :: 'C' :: '(' :: (content ++ ')' :: rem) ∧ content ≠ [] := by
  rcases l with _ | ⟨c0, _ | ⟨c1, _ | ⟨c2, _ | ⟨c3, rest⟩⟩⟩⟩
  · simp [tryMatch] at h
  · simp [tryMatch] at h
  · simp [tryMatch] at h
  · simp [tryMatch] at h
  · simp only [tryMatch] at h
    split at h
    · rename_i hcs
      obtain ⟨h0, h1, h2, h3⟩ := hcs
      split at h
      · rename_i r0 rem' hdrop
        split at h
        · rename_i hcond
          obtain ⟨hr0, hcne⟩ := hcond
          injection h with h
          injection h with hca hra
          subst h0; subst h1; subst h2; subst h3
          constructor
          · have hsplit := List.takeWhile_append_dropWhile (fun c => decide (c ≠ ')')) rest
            rw [hdrop, hca, hr0] at hsplit
            rw [← hra, ← hsplit]
          · rw [← hca]; exact hcne
        · exact absurd h (by simp)
      · exact absurd h (by simp)
    · exact absurd h (by simp)

lemma tryMatch_length (l content rem : List Char)
    (h : tryMatch l = some (content, rem)) :
    l.length = content.length + 5 + rem.length := by
  have := (tryMatch_some_shape l content rem h).1
  rw [this]
  simp
  omega

lemma scanGo_nil (rep : List Char → List Char) (n : Nat) : scanGo rep n [] = [] := by
  cases n <;> rfl

lemma scanGo_fuel (rep : List Char → List Char) :
    ∀ (n m : Nat) (l : List Char), l.length ≤ n → l.length ≤ m →
      scanGo rep n l = scanGo rep m l := by
  intro n
  induction n with
  | zero =>
    intro m l h1 _
    have : l = [] := List.eq_nil_of_length_eq_zero (by omega)
    subst this
    rw [scanGo_nil, scanGo_nil]
  | succ n ih =>
    intro m l h1 h2
    cases l with
    | nil => rw [scanGo_nil, scanGo_nil]
    | cons c cs =>
      cases m with
      | zero => simp at h2
      | succ m' =>
        cases htm : tryMatch (c :: cs) with
        | none =>
          simp only [scanGo, htm]
          rw [ih m' cs (by simp at h1; omega) (by simp at h2; omega)]
        | some p =>
          obtain ⟨content, rem⟩ := p
          have hl := tryMatch_length _ _ _ htm
          simp only [scanGo, htm]
          rw [ih m' rem (by simp at h1 hl; omega) (by simp at h2 hl; omega)]

lemma runScan_append_lit (rep : List Char → List Char) :
    ∀ (a rest : List Char), CleanFor a rest →
      runScan rep (a ++ rest) = a ++ runScan rep rest := by
  intro a
  induction a with
  | nil => intro rest _; simp [runScan]
  | cons x xs ih =>
    intro rest h
    have htm : tryMatch (x :: (xs ++ rest)) = none :=
      h (x :: xs) (by simp) (List.suffix_refl _)
    have hcl : CleanFor xs rest := by
      intro a2 hne hsuf
      exact h a2 hne (List.suffix_cons_iff.mpr (Or.inr hsuf))
    show scanGo rep ((x :: (xs ++ rest)).length) (x :: (xs ++ rest)) =
      x :: (xs ++ runScan rep rest)
    rw [List.length_cons]
    simp only [scanGo, htm]
    have := ih rest hcl
    rw [show scanGo rep (xs ++ rest).length (xs ++ rest) = runScan rep (xs ++ rest) from rfl]
    rw [this]

lemma runScan_frame (rep : List Char → List Char) (content rest : List Char)
    (hne : content ≠ []) (hnp : ∀ y ∈ content, y ≠ ')') :
    runScan rep ('E' :: 'N' :: 'C' :: '(' :: (content ++ ')' :: rest)) =
      rep content ++ runScan rep rest := by
  have htm := tryMatch_frame content rest hne hnp
  have hl : ('E' :: 'N' :: 'C' :: '(' :: (content ++ ')' :: rest)).length =
      (content.length + rest.length + 4) + 1 := by simp; omega
  rw [runScan, hl]
  simp only [scanGo, htm]
  rw [scanGo_fuel rep (content.length + rest.length + 4) rest.length rest (by omega) (le_refl _)]
  rfl

lemma containsOpen_suffix : ∀ {a2 a : List Char}, a2 <:+ a →
    containsOpen a2 = true → containsOpen a = true := by
  intro a2 a
  induction a with
  | nil =>
    intro h h2
    rw [List.suffix_nil.mp h] at h2
    simp [containsOpen] at h2
  | cons c cs ih =>
    intro h h2
    rcases List.suffix_cons_iff.mp h with h | h
    · rw [← h]; exact h2
    · have := ih h h2
      simp [containsOpen, this]

lemma cleanFor_of_noOpen (a rest : List Char) (hno : containsOpen a = false)
    (hhead : ∀ x, rest.head? = some x → x = 'E') : CleanFor a rest := by
  intro a2 hne hsuf
  cases hcon : tryMatch (a2 ++ rest) with
  | none => rfl
  | some p =>
    obtain ⟨content, rem⟩ := p
    exfalso
    have hshape := (tryMatch_some_shape _ _ _ hcon).1
    rcases a2 with _ | ⟨x, _ | ⟨y, _ | ⟨z, _ | ⟨w, t2⟩⟩⟩⟩
    · exact hne rfl
    · simp only [List.cons_append, List.nil_append] at hshape
      injection hshape with h1 h2
      have := hhead 'N' (by rw [h2]; rfl)
      exact absurd this (by decide)
    · simp only [List.cons_append, List.nil_append] at hshape
      injection hshape with h1 h2
      injection h2 with h2 h3
      have := hhead 'C' (by rw [h3]; rfl)
      exact absurd this (by decide)
    · simp only [List.cons_append, List.nil_append] at hshape
      injection hshape with h1 h2
      injection h2 with h2 h3
      injection h3 with h3 h4
      have := hhead '(' (by rw [h4]; rfl)
      exact absurd this (by decide)
    · simp only [List.cons_append] at hshape
      injection hshape with e1 hr
      injection hr with e2 hr
      injection hr with e3 hr
      injection hr with e4 hr
      have hso : startsOpen (x :: y :: z :: w :: t2) = true := by
        simp [startsOpen, e1, e2, e3, e4]
      have hco : containsOpen (x :: y :: z :: w :: t2) = true := by
        simp [containsOpen, hso]
      have := containsOpen_suffix hsuf hco
      rw [hno] at this
      exact absurd this (by simp)

lemma runScan_assemble (rep : List Char → List Char) :
    ∀ (ps : List (List Char × List Char)) (a : List Char),
      containsOpen a = false →
      (∀ p ∈ ps, p.1 ≠ [] ∧ (∀ y ∈ p.1, y ≠ ')') ∧ containsOpen p.2 = false) →
      runScan rep (assemble a ps) = assembleWith rep a ps := by
  intro ps
  induction ps with
  | nil =>
    intro a ha _
    have hcl : CleanFor a [] := cleanFor_of_noOpen a [] ha (by intro x hx; simp at hx)
    have h2 := runScan_append_lit rep a [] hcl
    rw [List.append_nil] at h2
    show runScan rep a = a
    rw [h2]
    simp [runScan, scanGo]
  | cons p rest ih =>
    intro a ha hps
    obtain ⟨c, b⟩ := p
    obtain ⟨hc1, hc2, hb⟩ := hps (c, b) (by simp)
    have hfr : ('E' :: 'N' :: 'C' :: '(' :: (c ++ [')'])) ++ assemble b rest =
        'E' :: 'N' :: 'C' :: '(' :: (c ++ ')' :: assemble b rest) := by simp
    have hcl : CleanFor a (('E' :: 'N' :: 'C' :: '(' :: (c ++ [')'])) ++ assemble b rest) :=
      cleanFor_of_noOpen a _ ha (by
        intro x hx
        simp only [List.cons_append, List.head?_cons] at hx
        exact (Option.some.inj hx).symm)
    calc runScan rep (assemble a ((c, b) :: rest))
        = runScan rep (a ++ (('E' :: 'N' :: 'C' :: '(' :: (c ++ [')'])) ++ assemble b rest)) := by
          rw [assemble, List.append_assoc]
      _ = a ++ runScan rep (('E' :: 'N' :: 'C' :: '(' :: (c ++ [')'])) ++ assemble b rest) :=
          runScan_append_lit rep a _ hcl
      _ = a ++ runScan rep ('E' :: 'N' :: 'C' :: '(' :: (c ++ ')' :: assemble b rest)) := by
          rw [hfr]
      _ = a ++ (rep c ++ runScan rep (assemble b rest)) := by
          rw [runScan_frame rep c _ hc1 hc2]
      _ = a ++ rep c ++ assembleWith rep b rest := by
          rw [ih b hb (fun q hq => hps q (by simp [hq])), List.append_assoc]
      _ = assembleWith rep a ((c, b) :: rest) := by rw [assembleWith]

/-- C7: the batch operations never propagate a decryption error.  For a
document assembled from match-free segments and framed occurrences,
`decryptAllInString` rewrites exactly the occurrences — successful ones
to their plaintext, failing ones to their original framed text — and
leaves every segment untouched; `decryptMap` applies the same per-value
silent-skip policy to each entry of a flat map independently, passing
non-encrypted values through unchanged. -/
theorem batch_silent_skip (decPref : List Char → Except Err (List Char))
    (a : List Char) (ps : List (List Char × List Char))
    (ha : containsOpen a = false)
    (hps : ∀ p ∈ ps, p.1 ≠ [] ∧ (∀ y ∈ p.1, y ≠ ')') ∧ containsOpen p.2 = false) :
    decryptAllInString decPref (assemble a ps) =
      assembleWith (replaceMatch decPref) a ps ∧
    (∀ content v, decPref ('E' :: 'N' :: 'C' :: '(' :: (content ++ [')'])) = .ok v →
      replaceMatch decPref content = v) ∧
    (∀ content er, decPref ('E' :: 'N' :: 'C' :: '(' :: (content ++ [')'])) = .error er →
      replaceMatch decPref content = 'E' :: 'N' :: 'C' :: '(' :: (content ++ [')'])) ∧
    (∀ (pre post : List (List Char × List Char)) (k v : List Char),
      decryptMap decPref (pre ++ (k, v) :: post) =
        decryptMap decPref pre ++
          (k,
            if isEncrypted (some v) then
              match decPref v with
              | .ok p => p
              | .error _ => v
            else v) :: decryptMap decPref post) := by
  refine ⟨?_, ?_, ?_, ?_⟩
  · exact runScan_assemble (replaceMatch decPref) ps a ha hps
  · intro content v h
    unfold replaceMatch
    rw [h]
  · intro content er h
    unfold replaceMatch
    rw [h]
  · intro pre post k v
    unfold decryptMap
    rw [List.map_append, List.map_cons]

/-- C7 witness input: a document with one decryptable and one
undecryptable occurrence. -/
def wDecPref : List Char → Except Err (List Char) :=
  fun m => if m = String.toList "ENC(ok)" then .ok (String.toList "PT")
           else .error .decryptionFailed

/-- C7 witness leading segment. -/
def wSegA : List Char := String.toList "x: "

/-- C7 witness occurrences and following segments. -/
def wSegs : List (List Char × List Char) :=
  [(String.toList "ok", String.toList ", y: "), (String.toList "bad", String.toList " end")]

/-- C7 witness: the assembled document rewrites occurrence-wise. -/
theorem batch_silent_skip_witness :
    decryptAllInString wDecPref (assemble wSegA wSegs) =
      assembleWith (replaceMatch wDecPref) wSegA wSegs ∧
    decryptMap wDecPref ([] ++ (String.toList "k", String.toList "ENC(ok)") :: []) =
      decryptMap wDecPref [] ++
        (String.toList "k",
          if isEncrypted (some (String.toList "ENC(ok)")) then
            match wDecPref (String.toList "ENC(ok)") with
            | .ok p => p
            | .error _ => String.toList "ENC(ok)"
          else String.toList "ENC(ok)") :: decryptMap wDecPref [] := by
  have h := batch_silent_skip wDecPref wSegA wSegs (by decide)
    (by unfold wSegs; decide)
  exact ⟨h.1, h.2.2.2 [] [] (String.toList "k") (String.toList "ENC(ok)")⟩

lemma tryMatch_ne_E (c : Char) (l : List Char) (h : c ≠ 'E') : tryMatch (c :: l) = none := by
  rcases l with _ | ⟨c1, _ | ⟨c2, _ | ⟨c3, t⟩⟩⟩
  · rfl
  · rfl
  · rfl
  · simp [tryMatch, h]

lemma tryMatch_empty_content (rest : List Char) :
    tryMatch ('E' :: 'N' :: 'C' :: '(' :: ')' :: rest) = none := by
  simp [tryMatch, List.dropWhile_cons, List.takeWhile_cons]

/-- C10: `decryptAllInString` steps over the literal text `ENC()`
unchanged, for every variant's decryptor and in every context, because
the scan pattern `ENC\(([^)]+)\)` requires at least one non-`)`
character between the markers — while `isEncrypted "ENC()"` is `true`,
so the batch scanner and `isEncrypted` disagree on empty-content framed
values. -/
theorem pattern_skips_empty :
    (∀ (decPref : List Char → Except Err (List Char)) (rest : List Char),
      decryptAllInString decPref ('E' :: 'N' :: 'C' :: '(' :: ')' :: rest) =
        'E' :: 'N' :: 'C' :: '(' :: ')' :: decryptAllInString decPref rest) ∧
    (∀ decPref : List Char → Except Err (List Char),
      decryptAllInString decPref (String.toList "ENC()") = String.toList "ENC()") ∧
    isEncrypted (some (String.toList "ENC()")) = true := by
  have hstep : ∀ (rep : List Char → List Char) (rest : List Char),
      runScan rep (['E', 'N', 'C', '(', ')'] ++ rest) =
        ['E', 'N', 'C', '(', ')'] ++ runScan rep rest := by
    intro rep rest
    apply runScan_append_lit
    intro a2 hne hsuf
    rcases List.suffix_cons_iff.mp hsuf with h | hsuf
    · rw [h]
      exact tryMatch_empty_content rest
    · rcases List.suffix_cons_iff.mp hsuf with h | hsuf
      · rw [h]; exact tryMatch_ne_E 'N' _ (by decide)
      · rcases List.suffix_cons_iff.mp hsuf with h | hsuf
        · rw [h]; exact tryMatch_ne_E 'C' _ (by decide)
        · rcases List.suffix_cons_iff.mp hsuf with h | hsuf
          · rw [h]; exact tryMatch_ne_E '(' _ (by decide)
          · rcases List.suffix_cons_iff.mp hsuf with h | hsuf
            · rw [h]; exact tryMatch_ne_E ')' _ (by decide)
            · rw [List.suffix_nil.mp hsuf] at hne
              exact absurd rfl hne
  refine ⟨?_, ?_, by decide⟩
  · intro decPref rest
    have := hstep (replaceMatch decPref) rest
    simpa [decryptAllInString] using this
  · intro decPref
    have := hstep (replaceMatch decPref) []
    simpa [decryptAllInString, runScan, scanGo] using this

end Nodecrypt
